import Mathlib

/-!
Verification of the scale-and-center screenshot transforms in
`convert_screenshots.py` and `resize_screenshots.py`.

The geometry of both transforms is embedded over exact rationals:
Python float division is modelled as division in `ℚ`, Python `int(...)`
(truncation toward zero) as `pyInt`, and Python `//` (floor division)
as `Int.fdiv`.  Images are modelled by their integer dimensions, plus a
pixel function where a claim needs pixel-level content.  The batch
drivers are modelled as functions from an abstract file system
(existence predicate, per-pair processing outcome) to the list of
console events they emit.
-/

/-- Python `int(q)`: truncation toward zero. -/
def pyInt (q : ℚ) : ℤ := if 0 ≤ q then ⌊q⌋ else ⌈q⌉

/-- Python `a // b` on integers: floor division. -/
def pyFloorDiv (a b : ℤ) : ℤ := Int.fdiv a b

/-- The fixed table of App Store target sizes, shared by both scripts. -/
def app_store_sizes : List (ℤ × ℤ) := [(1280, 800), (1440, 900), (2560, 1600), (2880, 1800)]

/-- The fixed input list, shared by both scripts. -/
def screenshots : List String := ["mainscreen.png", "settings.png", "compact.png"]

/-- Result of one transform call: dimensions of the output canvas, the
scaled (resized) content, and the paste offset. -/
structure TransformResult where
  outW : ℤ
  outH : ℤ
  scaledW : ℤ
  scaledH : ℤ
  offX : ℤ
  offY : ℤ
  deriving DecidableEq, Repr

/-- `width_scale = max_width / orig_width` with
`max_width = target_width - 2 * padding`, `padding = 100`
(`convert_screenshots.py` lines 18-23). -/
def convertWidthScale (ow tw : ℤ) : ℚ := ((tw : ℚ) - 2 * 100) / (ow : ℚ)

/-- `height_scale = max_height / orig_height` with `max_height = target_height - 2 * padding`. -/
def convertHeightScale (oh th : ℤ) : ℚ := ((th : ℚ) - 2 * 100) / (oh : ℚ)

/-- `scale = min(width_scale, height_scale, 2.0)`. -/
def convertScale (ow oh tw th : ℤ) : ℚ :=
  min (min (convertWidthScale ow tw) (convertHeightScale oh th)) 2

/-- The scaled size computed by `create_app_store_screenshot`
(`convert_screenshots.py` lines 17-29): padding-aware fit with a 2x
upscale cap.  `new_width = int(orig_width * scale)` (similarly height). -/
def convertNewSize (ow oh tw th : ℤ) : ℤ × ℤ :=
  (pyInt ((ow : ℚ) * convertScale ow oh tw th), pyInt ((oh : ℚ) * convertScale ow oh tw th))

/-- Geometry of `create_app_store_screenshot` (`convert_screenshots.py`):
the background is `Image.new('RGB', (target_width, target_height))`, the
content is resized to `convertNewSize`, and pasted at
`((target_width - new_width) // 2, (target_height - new_height) // 2)`. -/
def create_app_store_screenshot (ow oh tw th : ℤ) : TransformResult :=
  let nsz := convertNewSize ow oh tw th
  { outW := tw, outH := th, scaledW := nsz.1, scaledH := nsz.2,
    offX := pyFloorDiv (tw - nsz.1) 2, offY := pyFloorDiv (th - nsz.2) 2 }

/-- The scaled size computed by `resize_for_app_store`
(`resize_screenshots.py` lines 17-28): edge-to-edge fit.
`img_ratio = width / height`, `target_ratio = target_w / target_h`;
if `img_ratio > target_ratio` then `(target_w, int(target_w / img_ratio))`
else `(int(target_h * img_ratio), target_h)`. -/
def resizeNewSize (ow oh tw th : ℤ) : ℤ × ℤ :=
  let imgR : ℚ := (ow : ℚ) / (oh : ℚ)
  let targetR : ℚ := (tw : ℚ) / (th : ℚ)
  if imgR > targetR then
    (tw, pyInt ((tw : ℚ) / imgR))
  else
    (pyInt ((th : ℚ) * imgR), th)

/-- Geometry of `resize_for_app_store` (`resize_screenshots.py`): the
background is `Image.new('RGB', target_size)`, the content is resized to
`resizeNewSize`, and pasted at the floor-centered offset. -/
def resize_for_app_store (ow oh tw th : ℤ) : TransformResult :=
  let nsz := resizeNewSize ow oh tw th
  { outW := tw, outH := th, scaledW := nsz.1, scaledH := nsz.2,
    offX := pyFloorDiv (tw - nsz.1) 2, offY := pyFloorDiv (th - nsz.2) 2 }

/- ### Helper lemmas about `pyInt` -/

theorem pyInt_of_nonneg {q : ℚ} (h : 0 ≤ q) : pyInt q = ⌊q⌋ := if_pos h

theorem pyInt_intCast (n : ℤ) : pyInt (n : ℚ) = n := by
  unfold pyInt
  split
  · exact Int.floor_intCast n
  · exact Int.ceil_intCast n

theorem pyInt_nonneg {q : ℚ} (h : 0 ≤ q) : 0 ≤ pyInt q := by
  rw [pyInt_of_nonneg h]
  exact Int.le_floor.mpr (by exact_mod_cast h)

theorem pyInt_le_of_le {q : ℚ} {n : ℤ} (hq : q ≤ (n : ℚ)) (hn : 0 ≤ n) : pyInt q ≤ n := by
  unfold pyInt
  split
  · exact_mod_cast Int.floor_le_floor hq |>.trans_eq (Int.floor_intCast n)
  · have hq0 : q ≤ 0 := le_of_not_le (by assumption)
    have : (⌈q⌉ : ℤ) ≤ 0 := Int.ceil_le.mpr (by exact_mod_cast hq0)
    exact this.trans hn

theorem pyInt_lt_of_lt {q : ℚ} {n : ℤ} (hq : q < (n : ℚ)) (hn : 0 < n) : pyInt q < n := by
  unfold pyInt
  split
  · have : (⌊q⌋ : ℚ) < (n : ℚ) := lt_of_le_of_lt (Int.floor_le q) hq
    exact_mod_cast this
  · have hq0 : q ≤ 0 := le_of_not_le (by assumption)
    have : (⌈q⌉ : ℤ) ≤ 0 := Int.ceil_le.mpr (by exact_mod_cast hq0)
    exact lt_of_le_of_lt this hn

/- ### Shared geometric bounds -/

theorem fdiv_two_bounds (n : ℤ) (h : 0 ≤ n) :
    0 ≤ pyFloorDiv n 2 ∧ 2 * pyFloorDiv n 2 ≤ n ∧ n ≤ 2 * pyFloorDiv n 2 + 1 := by
  unfold pyFloorDiv
  rw [Int.fdiv_eq_ediv n (by norm_num)]
  omega

theorem convert_scaled_le (ow oh tw th : ℤ) (how : 0 < ow) (hoh : 0 < oh)
    (htw : 0 < tw) (hth : 0 < th) :
    (convertNewSize ow oh tw th).1 ≤ tw ∧ (convertNewSize ow oh tw th).2 ≤ th := by
  unfold convertNewSize convertScale convertWidthScale convertHeightScale
  have how' : (0 : ℚ) < (ow : ℚ) := by exact_mod_cast how
  have hoh' : (0 : ℚ) < (oh : ℚ) := by exact_mod_cast hoh
  set ws : ℚ := ((tw : ℚ) - 2 * 100) / (ow : ℚ) with hws
  set hs : ℚ := ((th : ℚ) - 2 * 100) / (oh : ℚ) with hhs
  set s : ℚ := min (min ws hs) 2 with hsdef
  constructor
  · have h1 : s ≤ ws := le_trans (min_le_left _ _) (min_le_left _ _)
    have h2 : (ow : ℚ) * s ≤ (ow : ℚ) * ws := by
      exact mul_le_mul_of_nonneg_left h1 (le_of_lt how')
    have h3 : (ow : ℚ) * ws = (tw : ℚ) - 2 * 100 := by
      rw [hws, mul_comm, div_mul_cancel₀ _ (ne_of_gt how')]
    have h4 : (ow : ℚ) * s < (tw : ℚ) := by
      rw [h3] at h2
      linarith
    exact le_of_lt (pyInt_lt_of_lt h4 htw)
  · have h1 : s ≤ hs := le_trans (min_le_left _ _) (min_le_right _ _)
    have h2 : (oh : ℚ) * s ≤ (oh : ℚ) * hs := by
      exact mul_le_mul_of_nonneg_left h1 (le_of_lt hoh')
    have h3 : (oh : ℚ) * hs = (th : ℚ) - 2 * 100 := by
      rw [hhs, mul_comm, div_mul_cancel₀ _ (ne_of_gt hoh')]
    have h4 : (oh : ℚ) * s < (th : ℚ) := by
      rw [h3] at h2
      linarith
    exact le_of_lt (pyInt_lt_of_lt h4 hth)

theorem resize_scaled_le (ow oh tw th : ℤ) (how : 0 < ow) (hoh : 0 < oh)
    (htw : 0 < tw) (hth : 0 < th) :
    (resizeNewSize ow oh tw th).1 ≤ tw ∧ (resizeNewSize ow oh tw th).2 ≤ th := by
  unfold resizeNewSize
  have how' : (0 : ℚ) < (ow : ℚ) := by exact_mod_cast how
  have hoh' : (0 : ℚ) < (oh : ℚ) := by exact_mod_cast hoh
  have htw' : (0 : ℚ) < (tw : ℚ) := by exact_mod_cast htw
  have hth' : (0 : ℚ) < (th : ℚ) := by exact_mod_cast hth
  dsimp only
  split
  · rename_i hgt
    refine ⟨le_refl tw, ?_⟩
    have hfrac : (tw : ℚ) / ((ow : ℚ) / (oh : ℚ)) < (th : ℚ) := by
      have h1 : (tw : ℚ) * (oh : ℚ) < (ow : ℚ) * (th : ℚ) := by
        have h2 := (div_lt_div_iff₀ hth' hoh').mp hgt
        linarith
      rw [div_div_eq_mul_div, div_lt_iff₀ how']
      linarith
    exact le_of_lt (pyInt_lt_of_lt hfrac hth)
  · rename_i hle
    push_neg at hle
    refine ⟨?_, le_refl th⟩
    have hfrac : (th : ℚ) * ((ow : ℚ) / (oh : ℚ)) ≤ (tw : ℚ) := by
      have h2 : (th : ℚ) * ((ow : ℚ) / (oh : ℚ)) ≤ (th : ℚ) * ((tw : ℚ) / (th : ℚ)) :=
        mul_le_mul_of_nonneg_left hle (le_of_lt hth')
      rw [mul_div_cancel₀ _ (ne_of_gt hth')] at h2
      exact h2
    exact pyInt_le_of_le hfrac (le_of_lt htw)

/- ### C1: output dimensions equal the target exactly -/

/-- C1: For every source image with positive dimensions and every target
size from the fixed table, the image produced by the transform (in both
variants) has width and height exactly equal to the requested target
size, regardless of the source's dimensions or aspect ratio.  The output
canvas is allocated at exactly the target size and pasting never changes
canvas dimensions. -/
theorem output_dims_eq_target (ow oh tw th : ℤ) (how : 0 < ow) (hoh : 0 < oh)
    (hsz : (tw, th) ∈ app_store_sizes) :
    ((create_app_store_screenshot ow oh tw th).outW = tw ∧
      (create_app_store_screenshot ow oh tw th).outH = th) ∧
    ((resize_for_app_store ow oh tw th).outW = tw ∧
      (resize_for_app_store ow oh tw th).outH = th) :=
  ⟨⟨rfl, rfl⟩, ⟨rfl, rfl⟩⟩

/-- Witness for C1 at a concrete 1000x600 source and the 1280x800 target. -/
theorem output_dims_eq_target_witness :
    (0 : ℤ) < 1000 ∧ (0 : ℤ) < 600 ∧ ((1280 : ℤ), (800 : ℤ)) ∈ app_store_sizes ∧
    (((create_app_store_screenshot 1000 600 1280 800).outW = 1280 ∧
      (create_app_store_screenshot 1000 600 1280 800).outH = 800) ∧
     ((resize_for_app_store 1000 600 1280 800).outW = 1280 ∧
      (resize_for_app_store 1000 600 1280 800).outH = 800)) :=
  ⟨by decide, by decide, by decide,
    output_dims_eq_target 1000 600 1280 800 (by decide) (by decide) (by decide)⟩

/- ### C3: scaled content fits the canvas and offsets are nonnegative -/

/-- C3: For every source with positive dimensions and every target with
positive width and height, the scaled image's width is at most the canvas
width and its height is at most the canvas height, and both components of
the placement offset `((tw - scaledW) // 2, (th - scaledH) // 2)` are
zero or positive — for both scale-selection policies. -/
theorem scaled_fits_and_offsets_nonneg (ow oh tw th : ℤ) (how : 0 < ow) (hoh : 0 < oh)
    (htw : 0 < tw) (hth : 0 < th) :
    ((create_app_store_screenshot ow oh tw th).scaledW ≤ tw ∧
      (create_app_store_screenshot ow oh tw th).scaledH ≤ th ∧
      0 ≤ (create_app_store_screenshot ow oh tw th).offX ∧
      0 ≤ (create_app_store_screenshot ow oh tw th).offY) ∧
    ((resize_for_app_store ow oh tw th).scaledW ≤ tw ∧
      (resize_for_app_store ow oh tw th).scaledH ≤ th ∧
      0 ≤ (resize_for_app_store ow oh tw th).offX ∧
      0 ≤ (resize_for_app_store ow oh tw th).offY) := by
  obtain ⟨hc1, hc2⟩ := convert_scaled_le ow oh tw th how hoh htw hth
  obtain ⟨hr1, hr2⟩ := resize_scaled_le ow oh tw th how hoh htw hth
  refine ⟨⟨hc1, hc2, ?_, ?_⟩, ⟨hr1, hr2, ?_, ?_⟩⟩
  · exact (fdiv_two_bounds _ (by simpa using sub_nonneg.mpr hc1)).1
  · exact (fdiv_two_bounds _ (by simpa using sub_nonneg.mpr hc2)).1
  · exact (fdiv_two_bounds _ (by simpa using sub_nonneg.mpr hr1)).1
  · exact (fdiv_two_bounds _ (by simpa using sub_nonneg.mpr hr2)).1

/-- Witness for C3 at a concrete 1000x600 source and the 1280x800 target. -/
theorem scaled_fits_and_offsets_nonneg_witness :
    (0 : ℤ) < 1000 ∧ (0 : ℤ) < 600 ∧ (0 : ℤ) < 1280 ∧ (0 : ℤ) < 800 ∧
    (((create_app_store_screenshot 1000 600 1280 800).scaledW ≤ 1280 ∧
      (create_app_store_screenshot 1000 600 1280 800).scaledH ≤ 800 ∧
      0 ≤ (create_app_store_screenshot 1000 600 1280 800).offX ∧
      0 ≤ (create_app_store_screenshot 1000 600 1280 800).offY) ∧
     ((resize_for_app_store 1000 600 1280 800).scaledW ≤ 1280 ∧
      (resize_for_app_store 1000 600 1280 800).scaledH ≤ 800 ∧
      0 ≤ (resize_for_app_store 1000 600 1280 800).offX ∧
      0 ≤ (resize_for_app_store 1000 600 1280 800).offY)) :=
  ⟨by decide, by decide, by decide, by decide,
    scaled_fits_and_offsets_nonneg 1000 600 1280 800 (by decide) (by decide) (by decide) (by decide)⟩

/- ### C5: floor-centered placement, near-symmetric margins -/

theorem margin_bounds (t s : ℤ) (hs : s ≤ t) :
    pyFloorDiv (t - s) 2 ≤ t - s - pyFloorDiv (t - s) 2 ∧
    t - s - pyFloorDiv (t - s) 2 ≤ pyFloorDiv (t - s) 2 + 1 := by
  have h := fdiv_two_bounds (t - s) (by omega)
  omega

/-- C5: Both variants place the scaled image at
`offset_x = (target_width - scaled_width) // 2` and
`offset_y = (target_height - scaled_height) // 2` (floor division), so the
margin on one side of the scaled content never exceeds the margin on the
opposite side by more than 1 pixel in either axis. -/
theorem centering_offsets_and_margins (ow oh tw th : ℤ) (how : 0 < ow) (hoh : 0 < oh)
    (htw : 0 < tw) (hth : 0 < th) :
    ((create_app_store_screenshot ow oh tw th).offX =
        pyFloorDiv (tw - (create_app_store_screenshot ow oh tw th).scaledW) 2 ∧
      (create_app_store_screenshot ow oh tw th).offY =
        pyFloorDiv (th - (create_app_store_screenshot ow oh tw th).scaledH) 2 ∧
      (create_app_store_screenshot ow oh tw th).offX ≤
        tw - (create_app_store_screenshot ow oh tw th).scaledW -
          (create_app_store_screenshot ow oh tw th).offX ∧
      tw - (create_app_store_screenshot ow oh tw th).scaledW -
          (create_app_store_screenshot ow oh tw th).offX ≤
        (create_app_store_screenshot ow oh tw th).offX + 1 ∧
      (create_app_store_screenshot ow oh tw th).offY ≤
        th - (create_app_store_screenshot ow oh tw th).scaledH -
          (create_app_store_screenshot ow oh tw th).offY ∧
      th - (create_app_store_screenshot ow oh tw th).scaledH -
          (create_app_store_screenshot ow oh tw th).offY ≤
        (create_app_store_screenshot ow oh tw th).offY + 1) ∧
    ((resize_for_app_store ow oh tw th).offX =
        pyFloorDiv (tw - (resize_for_app_store ow oh tw th).scaledW) 2 ∧
      (resize_for_app_store ow oh tw th).offY =
        pyFloorDiv (th - (resize_for_app_store ow oh tw th).scaledH) 2 ∧
      (resize_for_app_store ow oh tw th).offX ≤
        tw - (resize_for_app_store ow oh tw th).scaledW -
          (resize_for_app_store ow oh tw th).offX ∧
      tw - (resize_for_app_store ow oh tw th).scaledW -
          (resize_for_app_store ow oh tw th).offX ≤
        (resize_for_app_store ow oh tw th).offX + 1 ∧
      (resize_for_app_store ow oh tw th).offY ≤
        th - (resize_for_app_store ow oh tw th).scaledH -
          (resize_for_app_store ow oh tw th).offY ∧
      th - (resize_for_app_store ow oh tw th).scaledH -
          (resize_for_app_store ow oh tw th).offY ≤
        (resize_for_app_store ow oh tw th).offY + 1) := by
  obtain ⟨hc1, hc2⟩ := convert_scaled_le ow oh tw th how hoh htw hth
  obtain ⟨hr1, hr2⟩ := resize_scaled_le ow oh tw th how hoh htw hth
  have mcx := margin_bounds tw _ hc1
  have mcy := margin_bounds th _ hc2
  have mrx := margin_bounds tw _ hr1
  have mry := margin_bounds th _ hr2
  exact ⟨⟨rfl, rfl, mcx.1, mcx.2, mcy.1, mcy.2⟩, ⟨rfl, rfl, mrx.1, mrx.2, mry.1, mry.2⟩⟩

/-- Witness for C5 at a concrete 1000x600 source and the 1440x900 target. -/
theorem centering_offsets_and_margins_witness :
    (0 : ℤ) < 1000 ∧ (0 : ℤ) < 600 ∧ (0 : ℤ) < 1440 ∧ (0 : ℤ) < 900 ∧
    ((create_app_store_screenshot 1000 600 1440 900).offX =
        pyFloorDiv (1440 - (create_app_store_screenshot 1000 600 1440 900).scaledW) 2 ∧
     (resize_for_app_store 1000 600 1440 900).offX =
        pyFloorDiv (1440 - (resize_for_app_store 1000 600 1440 900).scaledW) 2) :=
  ⟨by decide, by decide, by decide, by decide,
    (centering_offsets_and_margins 1000 600 1440 900
      (by decide) (by decide) (by decide) (by decide)).1.1,
    (centering_offsets_and_margins 1000 600 1440 900
      (by decide) (by decide) (by decide) (by decide)).2.1⟩

/- ### C4: Policy B scale selection -/

/-- C4: Under Policy B (`resize_for_app_store`), when the source ratio
exceeds the target ratio the scaled width equals the target width and the
scaled height is the integer truncation of `target_width / source_ratio`
(equivalently `⌊tw * oh / ow⌋` since the value is nonnegative); otherwise
the scaled height equals the target height and the scaled width is the
truncation of `target_height * source_ratio`.  In particular a 1000x600
source and a 1280x800 target yield scaled size 1280x768 and offset
`(0, 16)`. -/
theorem resize_policy_edge_to_edge (ow oh tw th : ℤ) (how : 0 < ow) (hoh : 0 < oh)
    (htw : 0 < tw) (hth : 0 < th) :
    (((tw : ℚ) / (th : ℚ) < (ow : ℚ) / (oh : ℚ) →
        (resizeNewSize ow oh tw th).1 = tw ∧
        (resizeNewSize ow oh tw th).2 = ⌊(tw : ℚ) * (oh : ℚ) / (ow : ℚ)⌋) ∧
     (¬ (tw : ℚ) / (th : ℚ) < (ow : ℚ) / (oh : ℚ) →
        (resizeNewSize ow oh tw th).2 = th ∧
        (resizeNewSize ow oh tw th).1 = ⌊(th : ℚ) * (ow : ℚ) / (oh : ℚ)⌋)) ∧
    resize_for_app_store 1000 600 1280 800 =
      { outW := 1280, outH := 800, scaledW := 1280, scaledH := 768, offX := 0, offY := 16 } := by
  have how' : (0 : ℚ) < (ow : ℚ) := by exact_mod_cast how
  have hoh' : (0 : ℚ) < (oh : ℚ) := by exact_mod_cast hoh
  have htw' : (0 : ℚ) < (tw : ℚ) := by exact_mod_cast htw
  have hth' : (0 : ℚ) < (th : ℚ) := by exact_mod_cast hth
  refine ⟨⟨?_, ?_⟩, ?_⟩
  · intro hgt
    unfold resizeNewSize
    dsimp only
    rw [if_pos (show (ow : ℚ) / (oh : ℚ) > (tw : ℚ) / (th : ℚ) from hgt)]
    refine ⟨rfl, ?_⟩
    rw [div_div_eq_mul_div]
    exact pyInt_of_nonneg (div_nonneg (mul_nonneg htw'.le hoh'.le) how'.le)
  · intro hle
    unfold resizeNewSize
    dsimp only
    rw [if_neg (show ¬ (ow : ℚ) / (oh : ℚ) > (tw : ℚ) / (th : ℚ) from hle)]
    refine ⟨rfl, ?_⟩
    rw [← mul_div_assoc]
    exact pyInt_of_nonneg (div_nonneg (mul_nonneg hth'.le how'.le) hoh'.le)
  · have hsz : resizeNewSize 1000 600 1280 800 = (1280, 768) := by
      norm_num [resizeNewSize, pyInt]
    unfold resize_for_app_store
    rw [hsz]
    decide

/-- Witness for C4: the wider-than-target case at 1000x600 against 1280x800. -/
theorem resize_policy_edge_to_edge_witness :
    (0 : ℤ) < 1000 ∧ (0 : ℤ) < 600 ∧ (0 : ℤ) < 1280 ∧ (0 : ℤ) < 800 ∧
    (resizeNewSize 1000 600 1280 800).1 = 1280 ∧
    (resizeNewSize 1000 600 1280 800).2 = ⌊(1280 : ℚ) * (600 : ℚ) / (1000 : ℚ)⌋ := by
  have h := (resize_policy_edge_to_edge 1000 600 1280 800
    (by decide) (by decide) (by decide) (by decide)).1.1 (by norm_num)
  refine ⟨by decide, by decide, by decide, by decide, h.1, ?_⟩
  have h2 := h.2
  push_cast at h2 ⊢
  exact h2

/- ### C6: Policy B is the identity on an already-correctly-sized source -/

/-- A raster image: integer dimensions plus a pixel function (RGB). -/
structure Img where
  width : ℤ
  height : ℤ
  pixel : ℤ → ℤ → ℤ × ℤ × ℤ

/-- `background.paste(content, (x, y))`: inside the pasted rectangle the
content pixel shows, elsewhere the canvas pixel.  Canvas dimensions are
unchanged. -/
def pasteOpaque (canvas content : Img) (x y : ℤ) : Img :=
  { width := canvas.width, height := canvas.height,
    pixel := fun i j =>
      if x ≤ i ∧ i < x + content.width ∧ y ≤ j ∧ j < y + content.height then
        content.pixel (i - x) (j - y)
      else canvas.pixel i j }

/-- C6: Under Policy B, transforming a source whose dimensions already
equal the target yields a scaled size equal to the source size (scale
factor 1) and placement offset `(0, 0)`, and the opaque paste of such a
full-canvas content at the origin reproduces the content pixel at every
canvas coordinate: the output is the input composited on the background,
i.e. unchanged beyond re-encoding. -/
theorem resize_identity_on_matching_size (tw th : ℤ) (htw : 0 < tw) (hth : 0 < th) :
    resizeNewSize tw th tw th = (tw, th) ∧
    (resize_for_app_store tw th tw th).offX = 0 ∧
    (resize_for_app_store tw th tw th).offY = 0 ∧
    (∀ (bg content : Img) (i j : ℤ), content.width = tw → content.height = th →
      0 ≤ i → i < tw → 0 ≤ j → j < th →
      (pasteOpaque bg content 0 0).pixel i j = content.pixel i j) := by
  have hth' : (0 : ℚ) < (th : ℚ) := by exact_mod_cast hth
  have hsz : resizeNewSize tw th tw th = (tw, th) := by
    unfold resizeNewSize
    dsimp only
    rw [if_neg (lt_irrefl _)]
    refine Prod.ext ?_ rfl
    show pyInt ((th : ℚ) * ((tw : ℚ) / (th : ℚ))) = tw
    rw [mul_comm, div_mul_cancel₀ _ (ne_of_gt hth')]
    exact pyInt_intCast tw
  refine ⟨hsz, ?_, ?_, ?_⟩
  · show pyFloorDiv (tw - (resizeNewSize tw th tw th).1) 2 = 0
    rw [hsz]
    simp [pyFloorDiv, Int.zero_fdiv]
  · show pyFloorDiv (th - (resizeNewSize tw th tw th).2) 2 = 0
    rw [hsz]
    simp [pyFloorDiv, Int.zero_fdiv]
  · intro bg content i j hw hh hi1 hi2 hj1 hj2
    simp only [pasteOpaque]
    rw [if_pos]
    · simp
    · refine ⟨hi1, ?_, hj1, ?_⟩
      · rw [hw]; omega
      · rw [hh]; omega

/-- Witness for C6 at the 1280x800 target. -/
theorem resize_identity_on_matching_size_witness :
    (0 : ℤ) < 1280 ∧ (0 : ℤ) < 800 ∧
    resizeNewSize 1280 800 1280 800 = (1280, 800) ∧
    (resize_for_app_store 1280 800 1280 800).offX = 0 ∧
    (resize_for_app_store 1280 800 1280 800).offY = 0 := by
  have h := resize_identity_on_matching_size 1280 800 (by decide) (by decide)
  exact ⟨by decide, by decide, h.1, h.2.1, h.2.2.1⟩

/- ### Helpers for the aspect-ratio analysis -/

theorem sub_floor_mul_bounds (n c : ℤ) (hc : 0 < c) :
    0 ≤ n - ⌊(n : ℚ) / (c : ℚ)⌋ * c ∧ n - ⌊(n : ℚ) / (c : ℚ)⌋ * c < c := by
  have hc' : (0 : ℚ) < (c : ℚ) := by exact_mod_cast hc
  have h1 : (⌊(n : ℚ) / (c : ℚ)⌋ : ℚ) ≤ (n : ℚ) / (c : ℚ) := Int.floor_le _
  have h2 : (n : ℚ) / (c : ℚ) < ⌊(n : ℚ) / (c : ℚ)⌋ + 1 := Int.lt_floor_add_one _
  rw [le_div_iff₀ hc'] at h1
  rw [div_lt_iff₀ hc'] at h2
  have h3 : ⌊(n : ℚ) / (c : ℚ)⌋ * c ≤ n := by exact_mod_cast h1
  have h4 : n < (⌊(n : ℚ) / (c : ℚ)⌋ + 1) * c := by exact_mod_cast h2
  constructor
  · omega
  · linarith

theorem resizeNewSize_wider (ow oh tw th : ℤ) (how : 0 < ow) (hoh : 0 < oh)
    (htw : 0 < tw)
    (hgt : (tw : ℚ) / (th : ℚ) < (ow : ℚ) / (oh : ℚ)) :
    resizeNewSize ow oh tw th = (tw, ⌊((tw * oh : ℤ) : ℚ) / ((ow : ℤ) : ℚ)⌋) := by
  have how' : (0 : ℚ) < (ow : ℚ) := by exact_mod_cast how
  have hoh' : (0 : ℚ) < (oh : ℚ) := by exact_mod_cast hoh
  have htw' : (0 : ℚ) < (tw : ℚ) := by exact_mod_cast htw
  unfold resizeNewSize
  dsimp only
  rw [if_pos (show (ow : ℚ) / (oh : ℚ) > (tw : ℚ) / (th : ℚ) from hgt)]
  refine Prod.ext rfl ?_
  show pyInt ((tw : ℚ) / ((ow : ℚ) / (oh : ℚ))) = ⌊((tw * oh : ℤ) : ℚ) / ((ow : ℤ) : ℚ)⌋
  rw [div_div_eq_mul_div,
    pyInt_of_nonneg (div_nonneg (mul_nonneg htw'.le hoh'.le) how'.le)]
  congr 1
  push_cast
  ring

theorem resizeNewSize_taller (ow oh tw th : ℤ) (how : 0 < ow) (hoh : 0 < oh)
    (hth : 0 < th)
    (hle : ¬ (tw : ℚ) / (th : ℚ) < (ow : ℚ) / (oh : ℚ)) :
    resizeNewSize ow oh tw th = (⌊((th * ow : ℤ) : ℚ) / ((oh : ℤ) : ℚ)⌋, th) := by
  have how' : (0 : ℚ) < (ow : ℚ) := by exact_mod_cast how
  have hoh' : (0 : ℚ) < (oh : ℚ) := by exact_mod_cast hoh
  have hth' : (0 : ℚ) < (th : ℚ) := by exact_mod_cast hth
  unfold resizeNewSize
  dsimp only
  rw [if_neg (show ¬ (ow : ℚ) / (oh : ℚ) > (tw : ℚ) / (th : ℚ) from hle)]
  refine Prod.ext ?_ rfl
  show pyInt ((th : ℚ) * ((ow : ℚ) / (oh : ℚ))) = ⌊((th * ow : ℤ) : ℚ) / ((oh : ℤ) : ℚ)⌋
  rw [← mul_div_assoc,
    pyInt_of_nonneg (div_nonneg (mul_nonneg hth'.le how'.le) hoh'.le)]
  congr 1
  push_cast
  ring

/- ### C7: scaled content preserves the source aspect ratio up to truncation -/

/-- C7: For every source with positive dimensions processed by either
variant (targets come from the fixed table), the scaled content's aspect
ratio differs from the source's only by the truncation of the
non-binding dimension.  Stated cross-multiplied to avoid division: with
scaled size `(nw, nh)` and source `(ow, oh)`, the deviation
`nw * oh - nh * ow` (which equals `(nw/nh - ow/oh) * nh * oh`) is
nonnegative and strictly below `ow` when the width axis binds (height is
the truncated, non-binding axis — one pixel there moves the deviation by
`ow`), symmetrically below `oh` when the height axis binds, and zero when
the 2x cap binds (both dimensions are exactly doubled).  The first
conjunct records that these three cases are exhaustive for Policy A; the
two Policy B cases are exhaustive by excluded middle on the ratio test. -/
theorem aspect_ratio_within_truncation (ow oh tw th : ℤ) (how : 0 < ow) (hoh : 0 < oh)
    (hsz : (tw, th) ∈ app_store_sizes) :
    ((convertScale ow oh tw th = convertWidthScale ow tw ∨
      convertScale ow oh tw th = convertHeightScale oh th ∨
      convertScale ow oh tw th = 2) ∧
     (convertScale ow oh tw th = convertWidthScale ow tw →
       0 ≤ (convertNewSize ow oh tw th).1 * oh - (convertNewSize ow oh tw th).2 * ow ∧
       (convertNewSize ow oh tw th).1 * oh - (convertNewSize ow oh tw th).2 * ow < ow) ∧
     (convertScale ow oh tw th = convertHeightScale oh th →
       0 ≤ (convertNewSize ow oh tw th).2 * ow - (convertNewSize ow oh tw th).1 * oh ∧
       (convertNewSize ow oh tw th).2 * ow - (convertNewSize ow oh tw th).1 * oh < oh) ∧
     (convertScale ow oh tw th = 2 →
       (convertNewSize ow oh tw th).1 * oh - (convertNewSize ow oh tw th).2 * ow = 0)) ∧
    (((tw : ℚ) / (th : ℚ) < (ow : ℚ) / (oh : ℚ) →
       0 ≤ (resizeNewSize ow oh tw th).1 * oh - (resizeNewSize ow oh tw th).2 * ow ∧
       (resizeNewSize ow oh tw th).1 * oh - (resizeNewSize ow oh tw th).2 * ow < ow) ∧
     (¬ (tw : ℚ) / (th : ℚ) < (ow : ℚ) / (oh : ℚ) →
       0 ≤ (resizeNewSize ow oh tw th).2 * ow - (resizeNewSize ow oh tw th).1 * oh ∧
       (resizeNewSize ow oh tw th).2 * ow - (resizeNewSize ow oh tw th).1 * oh < oh)) := by
  have h200 : (200 : ℤ) < tw ∧ (200 : ℤ) < th := by
    simp only [app_store_sizes, List.mem_cons, List.not_mem_nil, or_false,
      Prod.mk.injEq] at hsz
    rcases hsz with ⟨h1, h2⟩ | ⟨h1, h2⟩ | ⟨h1, h2⟩ | ⟨h1, h2⟩ <;>
      subst h1 <;> subst h2 <;> exact ⟨by norm_num, by norm_num⟩
  obtain ⟨htw2, hth2⟩ := h200
  have htw : 0 < tw := by omega
  have hth : 0 < th := by omega
  have how' : (0 : ℚ) < (ow : ℚ) := by exact_mod_cast how
  have hoh' : (0 : ℚ) < (oh : ℚ) := by exact_mod_cast hoh
  refine ⟨⟨?_, ?_, ?_, ?_⟩, ?_, ?_⟩
  · unfold convertScale
    rcases min_cases (min (convertWidthScale ow tw) (convertHeightScale oh th)) 2 with
      ⟨h, _⟩ | ⟨h, _⟩
    · rcases min_cases (convertWidthScale ow tw) (convertHeightScale oh th) with
        ⟨h2, _⟩ | ⟨h2, _⟩
      · exact Or.inl (h.trans h2)
      · exact Or.inr (Or.inl (h.trans h2))
    · exact Or.inr (Or.inr h)
  · intro heq
    have e0 : (ow : ℚ) * convertScale ow oh tw th = ((tw - 200 : ℤ) : ℚ) := by
      rw [heq]
      unfold convertWidthScale
      rw [mul_comm, div_mul_cancel₀ _ (ne_of_gt how')]
      push_cast
      ring
    have e1 : (oh : ℚ) * convertScale ow oh tw th =
        (((tw - 200) * oh : ℤ) : ℚ) / ((ow : ℤ) : ℚ) := by
      rw [heq]
      unfold convertWidthScale
      push_cast
      field_simp
      ring
    have hnn : (0 : ℚ) ≤ (((tw - 200) * oh : ℤ) : ℚ) / ((ow : ℤ) : ℚ) := by
      apply div_nonneg _ how'.le
      have : (0 : ℤ) ≤ (tw - 200) * oh := mul_nonneg (by omega) (by omega)
      exact_mod_cast this
    unfold convertNewSize
    dsimp only
    rw [e0, e1, pyInt_intCast, pyInt_of_nonneg hnn]
    exact sub_floor_mul_bounds ((tw - 200) * oh) ow how
  · intro heq
    have e0 : (oh : ℚ) * convertScale ow oh tw th = ((th - 200 : ℤ) : ℚ) := by
      rw [heq]
      unfold convertHeightScale
      rw [mul_comm, div_mul_cancel₀ _ (ne_of_gt hoh')]
      push_cast
      ring
    have e1 : (ow : ℚ) * convertScale ow oh tw th =
        (((th - 200) * ow : ℤ) : ℚ) / ((oh : ℤ) : ℚ) := by
      rw [heq]
      unfold convertHeightScale
      push_cast
      field_simp
      ring
    have hnn : (0 : ℚ) ≤ (((th - 200) * ow : ℤ) : ℚ) / ((oh : ℤ) : ℚ) := by
      apply div_nonneg _ hoh'.le
      have : (0 : ℤ) ≤ (th - 200) * ow := mul_nonneg (by omega) (by omega)
      exact_mod_cast this
    unfold convertNewSize
    dsimp only
    rw [e0, e1, pyInt_intCast, pyInt_of_nonneg hnn]
    exact sub_floor_mul_bounds ((th - 200) * ow) oh hoh
  · intro heq
    have e0 : (ow : ℚ) * convertScale ow oh tw th = ((2 * ow : ℤ) : ℚ) := by
      rw [heq]
      push_cast
      ring
    have e1 : (oh : ℚ) * convertScale ow oh tw th = ((2 * oh : ℤ) : ℚ) := by
      rw [heq]
      push_cast
      ring
    unfold convertNewSize
    dsimp only
    rw [e0, e1, pyInt_intCast, pyInt_intCast]
    ring
  · intro hgt
    rw [resizeNewSize_wider ow oh tw th how hoh htw hgt]
    dsimp only
    exact sub_floor_mul_bounds (tw * oh) ow how
  · intro hle
    rw [resizeNewSize_taller ow oh tw th how hoh hth hle]
    dsimp only
    exact sub_floor_mul_bounds (th * ow) oh hoh

/-- Witness for C7: a 1000x600 source against the 1280x800 target under
Policy B (width axis binds). -/
theorem aspect_ratio_within_truncation_witness :
    (0 : ℤ) < 1000 ∧ (0 : ℤ) < 600 ∧ ((1280 : ℤ), (800 : ℤ)) ∈ app_store_sizes ∧
    (0 ≤ (resizeNewSize 1000 600 1280 800).1 * 600 -
        (resizeNewSize 1000 600 1280 800).2 * 1000 ∧
      (resizeNewSize 1000 600 1280 800).1 * 600 -
        (resizeNewSize 1000 600 1280 800).2 * 1000 < 1000) := by
  have h := (aspect_ratio_within_truncation 1000 600 1280 800
    (by decide) (by decide) (by decide)).2.1 (by norm_num)
  exact ⟨by decide, by decide, by decide, h⟩

/- ### Batch driver model -/

/-- A console-visible driver event: a missing-file (or caught-failure)
warning line, or a successfully processed (input, size) pair. -/
inductive Event where
  | warn (name : String)
  | processed (name : String) (w h : ℤ)
  deriving DecidableEq, Repr

/-- Per-pair step outcome oracle: `Except.error e` models the transform
raising a Python exception (decode, resize, compositing or save failure)
for that (input, size) pair; `Except.ok ()` models success. -/
abbrev StepOracle := String → ℤ × ℤ → Except String Unit

/-- The event list both driver loops produce when no per-pair failure
occurs: for each input in order, either all sizes processed (file exists)
or a single warning (file missing).  This is the common shape of
`convert_screenshots.main` lines 83-90 and `resize_screenshots.main`
lines 64-74. -/
def driverEvents (inputs : List String) (fs : String → Bool) : List Event :=
  inputs.flatMap fun s =>
    if fs s then app_store_sizes.map fun sz => Event.processed s sz.1 sz.2
    else [Event.warn s]

/-- Inner size loop of `convert_screenshots.main` (line 86-87):
`create_app_store_screenshot` has no exception guard, so the first
failing pair aborts the whole process. -/
def convertPairsE (s : String) (sizes : List (ℤ × ℤ)) (step : StepOracle) :
    Except String (List Event) :=
  match sizes with
  | [] => Except.ok []
  | sz :: rest =>
    match step s sz with
    | Except.error e => Except.error e
    | Except.ok _ =>
      match convertPairsE s rest step with
      | Except.error e => Except.error e
      | Except.ok evs => Except.ok (Event.processed s sz.1 sz.2 :: evs)

/-- The loop of `convert_screenshots.main` (lines 83-90): existence is
checked before decoding (warning and skip for missing inputs), but any
exception raised inside `create_app_store_screenshot` propagates and
aborts the run (`Except.error`). -/
def convertRunE (inputs : List String) (fs : String → Bool) (step : StepOracle) :
    Except String (List Event) :=
  match inputs with
  | [] => Except.ok []
  | s :: rest =>
    if fs s then
      match convertPairsE s app_store_sizes step with
      | Except.error e => Except.error e
      | Except.ok evs =>
        match convertRunE rest fs step with
        | Except.error e => Except.error e
        | Except.ok tail => Except.ok (evs ++ tail)
    else
      match convertRunE rest fs step with
      | Except.error e => Except.error e
      | Except.ok tail => Except.ok (Event.warn s :: tail)

/-- The loop of `resize_screenshots.main` (lines 64-74): existence is
checked first (warning and `continue` for missing inputs), and
`resize_for_app_store` wraps its whole body in `try/except Exception`,
so a failing pair becomes a printed error line and the run always
completes normally. -/
def resizeRunE (inputs : List String) (fs : String → Bool) (step : StepOracle) :
    List Event :=
  inputs.flatMap fun s =>
    if fs s then
      app_store_sizes.flatMap fun sz =>
        match step s sz with
        | Except.ok _ => [Event.processed s sz.1 sz.2]
        | Except.error _ => [Event.warn s]
    else [Event.warn s]

theorem convertPairsE_ok (s : String) (sizes : List (ℤ × ℤ)) (step : StepOracle)
    (hstep : ∀ t sz, step t sz = Except.ok ()) :
    convertPairsE s sizes step =
      Except.ok (sizes.map fun sz => Event.processed s sz.1 sz.2) := by
  induction sizes with
  | nil => rfl
  | cons sz rest ih =>
    unfold convertPairsE
    rw [hstep s sz, ih]
    rfl

theorem convertRunE_ok (inputs : List String) (fs : String → Bool) (step : StepOracle)
    (hstep : ∀ t sz, step t sz = Except.ok ()) :
    convertRunE inputs fs step = Except.ok (driverEvents inputs fs) := by
  induction inputs with
  | nil => rfl
  | cons s rest ih =>
    unfold convertRunE
    by_cases hfs : fs s
    · rw [if_pos hfs, convertPairsE_ok s app_store_sizes step hstep, ih]
      simp [driverEvents, hfs]
    · rw [if_neg hfs, ih]
      simp [driverEvents, hfs]

theorem resizeRunE_ok (inputs : List String) (fs : String → Bool) (step : StepOracle)
    (hstep : ∀ t sz, step t sz = Except.ok ()) :
    resizeRunE inputs fs step = driverEvents inputs fs := by
  unfold resizeRunE driverEvents
  induction inputs with
  | nil => rfl
  | cons s rest ih =>
    simp only [List.flatMap_cons, ih]
    congr 1
    by_cases hfs : fs s
    · rw [if_pos hfs, if_pos hfs]
      induction app_store_sizes with
      | nil => rfl
      | cons sz szrest ihs =>
        simp only [List.flatMap_cons, List.map_cons, hstep s sz, ihs]
        rfl
    · rw [if_neg hfs, if_neg hfs]

theorem driverEvents_missing_spec (inputs : List String) (fs : String → Bool) (f : String)
    (hf : f ∈ inputs) (hmiss : fs f = false) :
    Event.warn f ∈ driverEvents inputs fs ∧
    (∀ w h, Event.processed f w h ∉ driverEvents inputs fs) ∧
    (∀ g ∈ inputs, fs g = true → ∀ sz ∈ app_store_sizes,
      Event.processed g sz.1 sz.2 ∈ driverEvents inputs fs) := by
  refine ⟨?_, ?_, ?_⟩
  · rw [driverEvents, List.mem_flatMap]
    refine ⟨f, hf, ?_⟩
    rw [if_neg (by simp [hmiss])]
    simp
  · intro w h hmem
    rw [driverEvents, List.mem_flatMap] at hmem
    obtain ⟨a, _, hmem⟩ := hmem
    by_cases hfa : fs a = true
    · rw [if_pos hfa] at hmem
      rw [List.mem_map] at hmem
      obtain ⟨sz, _, heq⟩ := hmem
      cases heq
      rw [hfa] at hmiss
      exact Bool.true_eq_false.mp hmiss
    · rw [if_neg hfa] at hmem
      simp at hmem
  · intro g hg hgt sz hsz
    rw [driverEvents, List.mem_flatMap]
    refine ⟨g, hg, ?_⟩
    rw [if_pos hgt]
    exact List.mem_map.mpr ⟨sz, hsz, rfl⟩

/- ### C8: missing inputs are warned about, skipped, and do not stop the run -/

/-- C8: For every input list, when a listed input file does not exist,
both drivers emit a warning naming that file, never invoke the transform
for it (no processed event for that file, hence no decode attempt), do
not raise, and still process every remaining existing (input, size) pair
to completion.  `hstep` restricts attention to runs where the transforms
of the existing files themselves succeed, which is the scenario of the
claim: the missing file alone must not disturb the run. -/
theorem missing_input_warned_and_skipped (inputs : List String) (fs : String → Bool)
    (step : StepOracle) (f : String) (hf : f ∈ inputs) (hmiss : fs f = false)
    (hstep : ∀ t sz, step t sz = Except.ok ()) :
    convertRunE inputs fs step = Except.ok (driverEvents inputs fs) ∧
    resizeRunE inputs fs step = driverEvents inputs fs ∧
    Event.warn f ∈ driverEvents inputs fs ∧
    (∀ w h, Event.processed f w h ∉ driverEvents inputs fs) ∧
    (∀ g ∈ inputs, fs g = true → ∀ sz ∈ app_store_sizes,
      Event.processed g sz.1 sz.2 ∈ driverEvents inputs fs) := by
  obtain ⟨h1, h2, h3⟩ := driverEvents_missing_spec inputs fs f hf hmiss
  exact ⟨convertRunE_ok inputs fs step hstep, resizeRunE_ok inputs fs step hstep, h1, h2, h3⟩

/-- Witness for C8: `settings.png` missing while `mainscreen.png` exists. -/
theorem missing_input_warned_and_skipped_witness :
    "settings.png" ∈ screenshots ∧
    (fun s => s == "mainscreen.png") "settings.png" = false ∧
    Event.warn "settings.png" ∈
      driverEvents screenshots (fun s => s == "mainscreen.png") ∧
    convertRunE screenshots (fun s => s == "mainscreen.png") (fun _ _ => Except.ok ()) =
      Except.ok (driverEvents screenshots (fun s => s == "mainscreen.png")) := by
  have h := missing_input_warned_and_skipped screenshots (fun s => s == "mainscreen.png")
    (fun _ _ => Except.ok ()) "settings.png" (by decide) (by decide) (fun t sz => rfl)
  exact ⟨by decide, by decide, h.2.2.1, h.1⟩

/- ### C2: per-pair failure isolation holds only for the resize driver -/

/-- Counterexample to C2 as stated: in the convert driver every input
exists but decoding fails; `create_app_store_screenshot` has no
`try/except`, so the first failure escapes the (input, size) pair
boundary and the run aborts instead of completing — the process does not
exit 0 with a warning. -/
theorem convert_decode_failure_aborts_run :
    convertRunE screenshots (fun _ => true)
        (fun _ _ => Except.error "cannot identify image file") =
      Except.error "cannot identify image file" := rfl

theorem convertRunE_all_missing (inputs : List String) (fs : String → Bool)
    (step : StepOracle) :
    (∀ f ∈ inputs, fs f = false) →
    convertRunE inputs fs step = Except.ok (driverEvents inputs fs) := by
  induction inputs with
  | nil => intro _; rfl
  | cons s rest ih =>
    intro hall
    have hs : fs s = false := hall s (List.mem_cons_self s rest)
    unfold convertRunE
    rw [if_neg (by simp [hs]), ih (fun g hg => hall g (List.mem_cons_of_mem s hg))]
    simp [driverEvents, hs]

/-- C2 (amended): in the resize driver every per-pair failure is caught —
each existing (input, size) pair yields either a processed event or a
caught-failure warning, missing inputs yield warnings, and the run always
returns normally (the function is total); the convert driver is guarded
only against missing inputs — it completes when every input is missing,
while a decode or encode failure there aborts the run (see
`convert_decode_failure_aborts_run`). -/
theorem per_pair_isolation_resize_only (inputs : List String) (fs : String → Bool)
    (step : StepOracle) :
    (∀ f ∈ inputs, fs f = false → Event.warn f ∈ resizeRunE inputs fs step) ∧
    (∀ f ∈ inputs, fs f = true → ∀ sz ∈ app_store_sizes,
      Event.processed f sz.1 sz.2 ∈ resizeRunE inputs fs step ∨
      Event.warn f ∈ resizeRunE inputs fs step) ∧
    ((∀ f ∈ inputs, fs f = false) →
      convertRunE inputs fs step = Except.ok (driverEvents inputs fs)) := by
  refine ⟨?_, ?_, convertRunE_all_missing inputs fs step⟩
  · intro f hf hmiss
    rw [resizeRunE, List.mem_flatMap]
    refine ⟨f, hf, ?_⟩
    rw [if_neg (by simp [hmiss])]
    simp
  · intro f hf hft sz hsz
    cases hse : step f sz with
    | ok u =>
      left
      rw [resizeRunE, List.mem_flatMap]
      refine ⟨f, hf, ?_⟩
      rw [if_pos hft, List.mem_flatMap]
      refine ⟨sz, hsz, ?_⟩
      rw [hse]
      simp
    | error e =>
      right
      rw [resizeRunE, List.mem_flatMap]
      refine ⟨f, hf, ?_⟩
      rw [if_pos hft, List.mem_flatMap]
      refine ⟨sz, hsz, ?_⟩
      rw [hse]
      simp

/-- Witness for the amended C2: with every transform failing, the resize
driver still yields an event for the pair (`compact.png`, 1280x800), and
with every input missing the convert driver completes normally. -/
theorem per_pair_isolation_resize_only_witness :
    (Event.processed "compact.png" 1280 800 ∈
        resizeRunE screenshots (fun _ => true) (fun _ _ => Except.error "broken") ∨
      Event.warn "compact.png" ∈
        resizeRunE screenshots (fun _ => true) (fun _ _ => Except.error "broken")) ∧
    convertRunE screenshots (fun _ => false) (fun _ _ => Except.error "broken") =
      Except.ok (driverEvents screenshots (fun _ => false)) := by
  have h1 := (per_pair_isolation_resize_only screenshots (fun _ => true)
    (fun _ _ => Except.error "broken")).2.1 "compact.png" (by decide) rfl
    (1280, 800) (by decide)
  have h2 := (per_pair_isolation_resize_only screenshots (fun _ => false)
    (fun _ _ => Except.error "broken")).2.2 (fun f _ => rfl)
  exact ⟨h1, h2⟩

/- ### C10: the resize transform's exception guard -/

/-- Stage outcomes for one `resize_for_app_store` call: `Except.error`
models the corresponding PIL call raising (decode via `Image.open`,
resize/compositing via `resize`/`paste`, encode via `save`). -/
structure StageOracles where
  dec : Except String Unit
  rsz : Except String Unit
  sav : Except String Unit

/-- The try-block body of `resize_for_app_store` (`resize_screenshots.py`
lines 13-48): decode, resize and composite, save — the first raised
exception aborts the body; success returns the written path. -/
def resizeBody (o : StageOracles) (outputPath : String) : Except String String :=
  match o.dec with
  | Except.error e => Except.error e
  | Except.ok _ =>
    match o.rsz with
    | Except.error e => Except.error e
    | Except.ok _ =>
      match o.sav with
      | Except.error e => Except.error e
      | Except.ok _ => Except.ok outputPath

/-- `resize_for_app_store` with its `try/except Exception` wrapper (lines
12-51): any body failure becomes a printed `Error processing ...` line
and a normal return with no file written; success prints `Saved ...` and
records the written path. -/
def resize_for_app_store_guarded (o : StageOracles) (inputPath outputPath : String) :
    List String × Option String :=
  match resizeBody o outputPath with
  | Except.ok p => (["Saved " ++ p], some p)
  | Except.error e => (["Error processing " ++ inputPath ++ ": " ++ e], none)

/-- C10: For every input path and target size, `resize_for_app_store`
never raises: whatever stage of its body fails — decode, resize,
compositing or encode/save — the failure is converted to a printed
message and the call returns normally with no output file written for
that pair; only a fully successful body writes the file. -/
theorem resize_guard_catches_all (o : StageOracles) (ip op : String) :
    (∀ e, resizeBody o op = Except.error e →
      resize_for_app_store_guarded o ip op =
        (["Error processing " ++ ip ++ ": " ++ e], none)) ∧
    (((∃ e, o.dec = Except.error e) ∨ (∃ e, o.rsz = Except.error e) ∨
        (∃ e, o.sav = Except.error e)) →
      (resize_for_app_store_guarded o ip op).2 = none) ∧
    (o.dec = Except.ok () → o.rsz = Except.ok () → o.sav = Except.ok () →
      resize_for_app_store_guarded o ip op = (["Saved " ++ op], some op)) := by
  obtain ⟨d, r, v⟩ := o
  refine ⟨?_, ?_, ?_⟩
  · intro e he
    unfold resize_for_app_store_guarded
    rw [he]
  · intro hfail
    cases d with
    | error e0 => rfl
    | ok u =>
      cases u
      cases r with
      | error e0 => rfl
      | ok u2 =>
        cases u2
        cases v with
        | error e0 => rfl
        | ok u3 =>
          exfalso
          rcases hfail with ⟨e, he⟩ | ⟨e, he⟩ | ⟨e, he⟩ <;> simp at he
  · intro hd hr hv
    cases hd
    cases hr
    cases hv
    rfl

/-- Witness for C10: a failing decode stage yields the error line and no
written file; an all-success run writes the file. -/
theorem resize_guard_catches_all_witness :
    resizeBody ⟨Except.error "cannot identify image file", Except.ok (), Except.ok ()⟩
        "out.png" = Except.error "cannot identify image file" ∧
    resize_for_app_store_guarded
        ⟨Except.error "cannot identify image file", Except.ok (), Except.ok ()⟩
        "in.png" "out.png" =
      (["Error processing " ++ "in.png" ++ ": " ++ "cannot identify image file"], none) ∧
    resize_for_app_store_guarded ⟨Except.ok (), Except.ok (), Except.ok ()⟩
        "in.png" "out.png" = (["Saved " ++ "out.png"], some "out.png") := by
  refine ⟨rfl, ?_, ?_⟩
  · exact (resize_guard_catches_all
      ⟨Except.error "cannot identify image file", Except.ok (), Except.ok ()⟩
      "in.png" "out.png").1 "cannot identify image file" rfl
  · exact (resize_guard_catches_all ⟨Except.ok (), Except.ok (), Except.ok ()⟩
      "in.png" "out.png").2.2 rfl rfl rfl

/- ### C9: the printed manifest is a static cross product -/

/-- `os.path.splitext(name)[0]` for the names used here: the text before
the last dot, or the whole name when there is no dot. -/
def splitextBase (s : String) : String :=
  if ('.' : Char) ∈ s.toList then
    String.mk (((s.toList.reverse.dropWhile fun c => c ≠ '.').drop 1).reverse)
  else s

/-- The manifest line built at `convert_screenshots.py` line 99:
`f"{base_name}_{size[0]}x{size[1]}.png"`. -/
def outputName (base : String) (w h : ℤ) : String :=
  base ++ "_" ++ toString w ++ "x" ++ toString h ++ ".png"

/-- The manifest printed after the processing loop
(`convert_screenshots.py` lines 96-100): inputs outer, sizes inner, one
name per (input, size) pair, consulting neither the file system nor the
outcome of the loop. -/
def convertManifest : List String :=
  screenshots.flatMap fun s => app_store_sizes.map fun sz =>
    outputName (splitextBase s) sz.1 sz.2

/-- `convert_screenshots.main`: run the loop, then (if it did not abort)
print the manifest. -/
def convertMain (fs : String → Bool) (step : StepOracle) :
    Except String (List Event × List String) :=
  match convertRunE screenshots fs step with
  | Except.error e => Except.error e
  | Except.ok evs => Except.ok (evs, convertManifest)

/-- C9: After its processing loop, the convert driver prints a manifest
containing exactly one `{base}_{w}x{h}.png` name for every (input, size)
pair — all inputs crossed with all sizes in input-major order — and the
printed list is the same for every file-system state and every per-pair
outcome: it is a static enumeration, independent of whether inputs
existed or outputs were written. -/
theorem manifest_static_cross_product :
    (∀ (fs fs2 : String → Bool) (step step2 : StepOracle) evs evs2 ml ml2,
      convertMain fs step = Except.ok (evs, ml) →
      convertMain fs2 step2 = Except.ok (evs2, ml2) → ml = ml2) ∧
    (∀ (fs : String → Bool) (step : StepOracle) evs ml,
      convertMain fs step = Except.ok (evs, ml) → ml = convertManifest) ∧
    convertManifest =
      ["mainscreen_1280x800.png", "mainscreen_1440x900.png", "mainscreen_2560x1600.png",
       "mainscreen_2880x1800.png", "settings_1280x800.png", "settings_1440x900.png",
       "settings_2560x1600.png", "settings_2880x1800.png", "compact_1280x800.png",
       "compact_1440x900.png", "compact_2560x1600.png", "compact_2880x1800.png"] ∧
    convertManifest.length = screenshots.length * app_store_sizes.length ∧
    convertManifest.Nodup := by
  have hml : ∀ (fs : String → Bool) (step : StepOracle) evs ml,
      convertMain fs step = Except.ok (evs, ml) → ml = convertManifest := by
    intro fs step evs ml h
    unfold convertMain at h
    cases hrun : convertRunE screenshots fs step with
    | error e => rw [hrun] at h; exact absurd h (by simp)
    | ok evs2 =>
      rw [hrun] at h
      simp only [Except.ok.injEq, Prod.mk.injEq] at h
      exact h.2.symm
  refine ⟨?_, hml, by decide, by decide, by decide⟩
  intro fs fs2 step step2 evs evs2 ml ml2 h1 h2
  rw [hml fs step evs ml h1, hml fs2 step2 evs2 ml2 h2]

/-- Witness for C9: a concrete completed run (all inputs missing) whose
printed manifest is the static list. -/
theorem manifest_static_cross_product_witness :
    ∃ ml, convertMain (fun _ => false) (fun _ _ => Except.ok ()) =
        Except.ok (driverEvents screenshots (fun _ => false), ml) ∧
      ml = convertManifest := by
  have hrun : convertMain (fun _ => false) (fun _ _ => Except.ok ()) =
      Except.ok (driverEvents screenshots (fun _ => false), convertManifest) := by
    unfold convertMain
    rw [convertRunE_all_missing screenshots _ _ (fun f _ => rfl)]
  exact ⟨convertManifest, hrun,
    manifest_static_cross_product.2.1 (fun _ => false) (fun _ _ => Except.ok ()) _ _ hrun⟩
